import Mathlib

/-!
Verification of the Schelling segregation model implemented in `schelling.py`.

The Python program keeps a dictionary `homes : (x,y) → Home`, where each
`Home` stores its coordinates, a mutable `neighbors_list` and a mutable
`occupant` (a `Person` or `None`), a list `people` of `Person` objects and a
list `empty_homes` of vacant homes.  A `Person` stores its `group`, its
`happiness_threshold` and a back-reference `home`.

The shallow embedding below replaces the aliased object graph by an explicit
state: persons are identified by their index in `people`, a home's occupant
is `Option Nat` (the occupying person's index), and the per-home fields
`occupant` and `neighbors_list` become maps from the coordinate to the field
value.  Calls to `random.randrange(len(pool))` are modelled by a stream
`rand : Nat → Nat` of draws, reduced modulo the current pool length; an
index stream can realise every sequence of outcomes of `randrange`.
Operations that can raise in Python (`ZeroDivisionError` in `is_unhappy`,
`ValueError` from `randrange(0)`, `IndexError` from `breakdown[i]`) return
`none`.
-/

/-- A person (`Person` in `schelling.py`): group identifier, happiness
threshold (Python float, modelled as a rational) and the coordinates of the
currently occupied home.  In Python `home` is `None` only transiently inside
`Person.__init__` before the initial `move`; placed persons always have a
home, so `home` is a plain coordinate here and the initial placement is
inlined in `placePeople` below. -/
structure Person where
  group : Nat
  home : Int × Int
  happiness_threshold : ℚ
deriving DecidableEq

/-- Default person used to make list indexing total; reachable states never
index out of range (see invariant `CityInv`). -/
def personDefault : Person := ⟨0, (0, 0), 0⟩

/-- The simulation state (`City` in `schelling.py`).  `occupant c` and
`neighbors_list c` are the fields of the `Home` at coordinate `c`; the grid
itself is the coordinate rectangle `[0,nx) × [0,ny)`. -/
structure City where
  nx : Nat
  ny : Nat
  ngroups : Nat
  happiness_threshold : ℚ
  breakdown : List ℚ
  people : List Person
  empty_homes : List (Int × Int)
  occupant : Int × Int → Option Nat
  neighbors_list : Int × Int → List (Int × Int)

/-- The insertion order of the `homes` dict built by `City.__init__`:
`for i in range(nx): for j in range(ny): homes[(i,j)] = Home(i,j)`. -/
def gridCoords (nx ny : Nat) : List (Int × Int) :=
  (List.range nx).flatMap fun i => (List.range ny).map fun j => (Int.ofNat i, Int.ofNat j)

/-- The membership test `(x,y) in self.homes.keys()`. -/
def inGridB (nx ny : Nat) (c : Int × Int) : Bool :=
  decide (0 ≤ c.1) && decide (c.1 < (nx : Int)) && decide (0 ≤ c.2) && decide (c.2 < (ny : Int))

/-- `self.empty_homes.pop(random.randrange(len(self.empty_homes)))`: remove
and return the element at a drawn position.  `randrange(0)` raises
`ValueError`, hence `none` on the empty list; on a non-empty list the raw
draw is reduced modulo the length, so every valid position is realisable. -/
def popAt {α : Type} (l : List α) (i : Nat) : Option (α × List α) :=
  match l with
  | [] => none
  | a :: as =>
    let j := i % (a :: as).length
    some ((a :: as).getD j a, (a :: as).eraseIdx j)

/-- Python's `int()` applied to a rational-valued float: truncation toward
zero (`int(breakdown[i]*len(self.homes))` in `populate_homes`). -/
def pyInt (q : ℚ) : Int := if 0 ≤ q then ⌊q⌋ else ⌈q⌉

/-- The number of people created for one group:
`int(self.breakdown[i] * len(self.homes))`, as a natural number
(`range` of a negative value is empty). -/
def groupSize (nx ny : Nat) (b : ℚ) : Nat := (pyInt (b * ((nx * ny : Nat) : ℚ))).toNat

/-- `Person.move(new_home)` for a person that already occupies a home, as
called from `move_unhappy`: clear the old home's occupant, set the new
home's occupant to the person and update the person's `home` reference.
(The Python code assigns `new_home.occupant` after clearing, so if the two
homes coincided the later write would win; the conditional checks the new
home first for the same reason.) -/
def Person.move (st : City) (i : Nat) (new_home : Int × Int) : City :=
  let p := st.people.getD i personDefault
  { st with
    occupant := fun c =>
      if c = new_home then some i else if c = p.home then none else st.occupant c,
    people := st.people.set i { p with home := new_home } }

/-- The body of the placement loop `for p in range(npeople)` in
`populate_homes`: pop a random vacant home, create a `Person` of group `g`
occupying it (`Person.__init__` calls `move`, and `populate_homes` also sets
`home.occupant = person`), append it to `people`.  The draw stream is
indexed by the number of people already created. -/
def placePeople : Nat → Nat → City → (Nat → Nat) → Option City
  | 0, _, st, _ => some st
  | n + 1, g, st, rand =>
    match popAt st.empty_homes (rand st.people.length) with
    | none => none
    | some (h, rest) =>
      placePeople n g
        { st with
          empty_homes := rest,
          people := st.people ++ [⟨g, h, st.happiness_threshold⟩],
          occupant := fun c => if c = h then some st.people.length else st.occupant c }
        rand

/-- The outer loop `for i in range(self.ngroups)` of `populate_homes`:
look up `self.breakdown[i]` (an out-of-range index raises, hence `none`),
compute the group size and place that many people. -/
def seedGroups : List Nat → City → (Nat → Nat) → Option City
  | [], st, _ => some st
  | i :: rest, st, rand =>
    match st.breakdown.get? i with
    | none => none
    | some b =>
      match placePeople (groupSize st.nx st.ny b) i st rand with
      | none => none
      | some st' => seedGroups rest st' rand

/-- `City.populate_homes`: first append every home to `self.empty_homes`
(in dict insertion order), then seed the groups.  The `breakdown` argument
of the Python method is ignored in favour of `self.breakdown`, which the
embedding reads directly. -/
def City.populate_homes (st : City) (rand : Nat → Nat) : Option City :=
  seedGroups (List.range st.ngroups)
    { st with empty_homes := st.empty_homes ++ gridCoords st.nx st.ny } rand

/-- The neighbour candidates scanned by `find_neighbors`:
`for x in range(home.x-1, home.x+2): for y in range(home.y-1, home.y+2)`,
in loop order. -/
def candidates (c : Int × Int) : List (Int × Int) :=
  [(c.1 - 1, c.2 - 1), (c.1 - 1, c.2), (c.1 - 1, c.2 + 1),
   (c.1, c.2 - 1), (c.1, c.2), (c.1, c.2 + 1),
   (c.1 + 1, c.2 - 1), (c.1 + 1, c.2), (c.1 + 1, c.2 + 1)]

/-- The homes appended to one home's `neighbors_list` by one run of
`find_neighbors`: candidates that exist in the grid and differ from the
home itself. -/
def neighborCoords (nx ny : Nat) (c : Int × Int) : List (Int × Int) :=
  (candidates c).filter fun d => inGridB nx ny d && decide (d ≠ c)

/-- `City.find_neighbors`: for every home of the grid, append the qualifying
candidates to its current `neighbors_list` (the Python code appends without
clearing the list first). -/
def City.find_neighbors (st : City) : City :=
  { st with
    neighbors_list := fun c =>
      if inGridB st.nx st.ny c then st.neighbors_list c ++ neighborCoords st.nx st.ny c
      else st.neighbors_list c }

/-- `City.__init__(nx, ny, happiness_threshold, ngroups, breakdown)`:
build the empty grid, populate the homes, then compute the neighbours
(in that order). -/
def City.init (nx ny : Nat) (thr : ℚ) (ngroups : Nat) (breakdown : List ℚ)
    (rand : Nat → Nat) : Option City :=
  let st0 : City :=
    { nx := nx, ny := ny, ngroups := ngroups, happiness_threshold := thr,
      breakdown := breakdown, people := [], empty_homes := [],
      occupant := fun _ => none, neighbors_list := fun _ => [] }
  (st0.populate_homes rand).map City.find_neighbors

/-- The loop of `Person.is_unhappy`: fold over the home's `neighbors_list`,
counting occupied neighbours of the same group and of a different group
(vacant neighbours contribute to neither). -/
def neighborCounts (st : City) (g : Nat) (c : Int × Int) : Nat × Nat :=
  (st.neighbors_list c).foldl
    (fun acc n =>
      match st.occupant n with
      | none => acc
      | some idx =>
        if (st.people.getD idx personDefault).group = g then (acc.1 + 1, acc.2)
        else (acc.1, acc.2 + 1))
    (0, 0)

/-- `Person.is_unhappy`: with `same` and `diff` the two counts, the Python
code computes `float(number_same)/(number_diff+number_same)` — a
`ZeroDivisionError` (hence `none`) when both counts are zero — and returns
whether the quotient is strictly below the person's threshold. -/
def Person.is_unhappy (st : City) (p : Person) : Option Bool :=
  let counts := neighborCounts st p.group p.home
  if counts.1 + counts.2 = 0 then none
  else some (decide (((counts.1 : ℚ)) / (((counts.2 : ℚ)) + ((counts.1 : ℚ))) < p.happiness_threshold))

/-- The loop of `move_unhappy` over `self.people`, by index.  For an unhappy
person: increment the counter, pop a random empty home (a crash — `none` —
on an empty pool), append the person's old home to the pool, move the
person.  The draw stream is indexed by the number of moves already made. -/
def moveLoop : List Nat → Nat → City → (Nat → Nat) → Option (Nat × City)
  | [], n, st, _ => some (n, st)
  | i :: rest, n, st, rand =>
    let p := st.people.getD i personDefault
    match Person.is_unhappy st p with
    | none => none
    | some false => moveLoop rest n st rand
    | some true =>
      match popAt st.empty_homes (rand n) with
      | none => none
      | some (h, pool) =>
        moveLoop rest (n + 1)
          (Person.move { st with empty_homes := pool ++ [p.home] } i h) rand

/-- `City.move_unhappy`: scan the whole population once, relocating every
unhappy person, and return the number of people moved together with the
final state. -/
def City.move_unhappy (st : City) (rand : Nat → Nat) : Option (Nat × City) :=
  moveLoop (List.range st.people.length) 0 st rand

/-- The states the simulation can actually be in: the result of
`City.__init__`, or of a completed `move_unhappy` step from a reachable
state. -/
inductive Reachable : City → Prop
  | init (nx ny : Nat) (thr : ℚ) (ngroups : Nat) (breakdown : List ℚ)
      (rand : Nat → Nat) (st : City) :
      City.init nx ny thr ngroups breakdown rand = some st → Reachable st
  | step (st st' : City) (rand : Nat → Nat) (n : Nat) :
      Reachable st → st.move_unhappy rand = some (n, st') → Reachable st'

/-- Number of occupied homes of the grid. -/
def occupiedCount (st : City) : Nat :=
  (gridCoords st.nx st.ny).countP fun c => (st.occupant c).isSome

/-- The group of the person occupying a coordinate, if any. -/
def occupantGroup (st : City) (c : Int × Int) : Option Nat :=
  (st.occupant c).map fun idx => (st.people.getD idx personDefault).group

/-- Specification-level count of occupied neighbours of the same group as
the given person (the `number_same` counter of `Person.is_unhappy`). -/
def sameCount (st : City) (p : Person) : Nat :=
  (st.neighbors_list p.home).countP fun n => decide (occupantGroup st n = some p.group)

/-- Specification-level count of occupied neighbours of a different group
(the `number_diff` counter of `Person.is_unhappy`). -/
def diffCount (st : City) (p : Person) : Nat :=
  (st.neighbors_list p.home).countP fun n =>
    (st.occupant n).isSome && !(decide (occupantGroup st n = some p.group))

/-- An inert default state, used only to strip the `Option` from
`City.init` when building concrete example cities. -/
def cityDefault : City :=
  { nx := 0, ny := 0, ngroups := 0, happiness_threshold := 0, breakdown := [],
    people := [], empty_homes := [], occupant := fun _ => none,
    neighbors_list := fun _ => [] }

/-- A 2x2 city with two group-0 people in the left column: everyone has only
same-group neighbours, so a step moves nobody. -/
def city22 : City :=
  (City.init 2 2 (mkRat 3 10) 1 [mkRat 1 2] (fun _ => 0)).getD cityDefault

/-- An unpopulated 3x3 city (no groups), used to exhibit the neighbour
lists concretely. -/
def city33 : City :=
  (City.init 3 3 (mkRat 3 10) 0 [] (fun _ => 0)).getD cityDefault

/-- A 2x5 city whose breakdown sums to 11/10 > 1 yet whose floored group
counts (5 and 5) exactly exhaust the ten cells: construction succeeds and
the vacancy pool ends up empty. -/
def city25 : City :=
  (City.init 2 5 (mkRat 1 2) 2 [mkRat 11 20, mkRat 11 20] (fun _ => 0)).getD cityDefault

/-- A 1x1 city with a single person: its home has no neighbours at all, so
`same + diff = 0` in `is_unhappy`. -/
def soloCity : City :=
  (City.init 1 1 (mkRat 3 10) 1 [1] (fun _ => 0)).getD cityDefault

/-- The 10x10 city of the seeding-count example: breakdown 2/5 and 1/2. -/
def bigCity : City :=
  (City.init 10 10 (mkRat 3 10) 2 [mkRat 2 5, mkRat 1 2] (fun _ => 0)).getD cityDefault

/-- The person at the happiness boundary: group 0, threshold 3/10. -/
def boundaryPerson : Person := ⟨0, (0, 0), mkRat 3 10⟩

/-- A hand-built state in which `boundaryPerson`'s home has exactly ten
occupied neighbours, three of its own group and seven of the other. -/
def boundaryCity : City :=
  { nx := 11, ny := 1, ngroups := 2, happiness_threshold := mkRat 3 10,
    breakdown := [],
    people := boundaryPerson ::
      ((List.range 10).map fun k =>
        ⟨if k < 3 then 0 else 1, (Int.ofNat (k + 1), 0), mkRat 3 10⟩),
    empty_homes := [],
    occupant := fun c =>
      if c.2 = 0 ∧ 1 ≤ c.1 ∧ c.1 ≤ 10 then some c.1.toNat else none,
    neighbors_list := fun c =>
      if c = (0, 0) then (List.range 10).map (fun k => (Int.ofNat (k + 1), 0)) else [] }

/-! ### Basic facts: the grid, the candidate scan, random pops -/

lemma mem_gridCoords {nx ny : Nat} {c : Int × Int} :
    c ∈ gridCoords nx ny ↔ 0 ≤ c.1 ∧ c.1 < (nx : Int) ∧ 0 ≤ c.2 ∧ c.2 < (ny : Int) := by
  obtain ⟨a, b⟩ := c
  simp only [gridCoords, List.mem_flatMap, List.mem_map, List.mem_range, Prod.mk.injEq,
    Int.ofNat_eq_natCast]
  constructor
  · rintro ⟨i, hi, j, hj, rfl, rfl⟩
    exact ⟨by omega, by omega, by omega, by omega⟩
  · rintro ⟨h1, h2, h3, h4⟩
    exact ⟨a.toNat, by omega, b.toNat, by omega, by omega, by omega⟩

lemma inGridB_iff {nx ny : Nat} {c : Int × Int} :
    inGridB nx ny c = true ↔ c ∈ gridCoords nx ny := by
  rw [mem_gridCoords]; simp [inGridB, and_assoc]

lemma gridCoords_nodup (nx ny : Nat) : (gridCoords nx ny).Nodup := by
  unfold gridCoords
  rw [List.nodup_flatMap]
  refine ⟨fun i _ => ?_, ?_⟩
  · refine List.Nodup.map ?_ (List.nodup_range _)
    intro x y h
    simpa [Int.ofNat_eq_natCast] using h
  · refine (List.nodup_range nx).imp ?_
    intro i j hij
    simp only [Function.onFun, List.disjoint_left]
    rintro x hx hx'
    simp only [List.mem_map, List.mem_range, Int.ofNat_eq_natCast] at hx hx'
    obtain ⟨u, _, rfl⟩ := hx
    obtain ⟨v, _, hvu⟩ := hx'
    have : (j : Int) = (i : Int) := congrArg Prod.fst hvu
    exact hij (by omega)

lemma gridCoords_length (nx ny : Nat) : (gridCoords nx ny).length = nx * ny := by
  simp [gridCoords, List.length_flatMap, Function.comp_def, List.map_const',
    List.sum_replicate, smul_eq_mul]

lemma perm_cons_eraseIdx {α : Type} (l : List α) (j : Nat) (h : j < l.length) :
    l.Perm (l[j] :: l.eraseIdx j) := by
  conv_lhs => rw [← List.take_append_drop j l, ← List.getElem_cons_drop l j h]
  rw [List.eraseIdx_eq_take_drop_succ]
  exact List.perm_middle

lemma popAt_none {α : Type} {l : List α} {i : Nat} : popAt l i = none ↔ l = [] := by
  cases l <;> simp [popAt]

/-- A successful pop returns some position's element and the list with that
position removed; in particular the input list is a permutation of the
element consed onto the leftover. -/
lemma popAt_perm {α : Type} {l l' : List α} {i : Nat} {a : α}
    (h : popAt l i = some (a, l')) : l.Perm (a :: l') := by
  match l with
  | [] => simp [popAt] at h
  | b :: bs =>
    have hlen : 0 < (b :: bs).length := by simp
    have hj : i % (b :: bs).length < (b :: bs).length := Nat.mod_lt _ hlen
    simp only [popAt, Option.some.injEq, Prod.mk.injEq] at h
    obtain ⟨ha, hl'⟩ := h
    rw [List.getD_eq_getElem _ _ hj] at ha
    subst ha; subst hl'
    exact perm_cons_eraseIdx _ _ hj

/-! ### Helper lemmas about `getD` on appended and updated lists -/

lemma getD_append_lt {α : Type} (l l2 : List α) (d : α) (i : Nat) (h : i < l.length) :
    (l ++ l2).getD i d = l.getD i d := by
  rw [List.getD_eq_getElem _ _ (by rw [List.length_append]; omega),
    List.getD_eq_getElem _ _ h, List.getElem_append_left h]

lemma getD_concat_length {α : Type} (l : List α) (a d : α) :
    (l ++ [a]).getD l.length d = a := by
  rw [List.getD_eq_getElem _ _ (by rw [List.length_append]; simp)]
  simp

lemma getD_set_self {α : Type} (l : List α) (i : Nat) (a d : α) (h : i < l.length) :
    (l.set i a).getD i d = a := by
  rw [List.getD_eq_getElem _ _ (by rwa [List.length_set])]
  simp [List.getElem_set, h]

lemma getD_set_ne {α : Type} (l : List α) (i j : Nat) (a d : α) (h : i ≠ j) :
    (l.set i a).getD j d = l.getD j d := by
  by_cases hj : j < l.length
  · rw [List.getD_eq_getElem _ _ (by rwa [List.length_set]), List.getD_eq_getElem _ _ hj]
    simp [List.getElem_set, h]
  · rw [List.getD_eq_default _ _ (by rw [List.length_set]; omega),
      List.getD_eq_default _ _ (by omega)]

/-! ### Frame lemmas: which fields each operation leaves untouched -/

lemma placePeople_frame {n g : Nat} {st st' : City} {rand : Nat → Nat}
    (h : placePeople n g st rand = some st') :
    st'.nx = st.nx ∧ st'.ny = st.ny ∧ st'.ngroups = st.ngroups ∧
    st'.happiness_threshold = st.happiness_threshold ∧ st'.breakdown = st.breakdown ∧
    st'.neighbors_list = st.neighbors_list := by
  induction n generalizing st with
  | zero =>
    simp only [placePeople, Option.some.injEq] at h
    subst h; exact ⟨rfl, rfl, rfl, rfl, rfl, rfl⟩
  | succ n ih =>
    simp only [placePeople] at h
    split at h
    · exact absurd h (by simp)
    · have hmid := ih h
      exact hmid

lemma seedGroups_frame {l : List Nat} {st st' : City} {rand : Nat → Nat}
    (h : seedGroups l st rand = some st') :
    st'.nx = st.nx ∧ st'.ny = st.ny ∧ st'.ngroups = st.ngroups ∧
    st'.happiness_threshold = st.happiness_threshold ∧ st'.breakdown = st.breakdown ∧
    st'.neighbors_list = st.neighbors_list := by
  induction l generalizing st with
  | nil =>
    simp only [seedGroups, Option.some.injEq] at h
    subst h; exact ⟨rfl, rfl, rfl, rfl, rfl, rfl⟩
  | cons i rest ih =>
    simp only [seedGroups] at h
    split at h
    · exact absurd h (by simp)
    · split at h
      · exact absurd h (by simp)
      · case _ st₁ heq =>
        obtain ⟨h1, h2, h3, h4, h5, h6⟩ := placePeople_frame heq
        have hmid := ih h
        obtain ⟨g1, g2, g3, g4, g5, g6⟩ := hmid
        exact ⟨g1.trans h1, g2.trans h2, g3.trans h3, g4.trans h4, g5.trans h5, g6.trans h6⟩

lemma moveLoop_frame {idxs : List Nat} {n m : Nat} {st st' : City} {rand : Nat → Nat}
    (h : moveLoop idxs n st rand = some (m, st')) :
    st'.nx = st.nx ∧ st'.ny = st.ny ∧ st'.ngroups = st.ngroups ∧
    st'.happiness_threshold = st.happiness_threshold ∧ st'.breakdown = st.breakdown ∧
    st'.neighbors_list = st.neighbors_list ∧ st'.people.length = st.people.length := by
  induction idxs generalizing n st with
  | nil =>
    simp only [moveLoop, Option.some.injEq, Prod.mk.injEq] at h
    rw [← h.2]
    exact ⟨rfl, rfl, rfl, rfl, rfl, rfl, rfl⟩
  | cons i rest ih =>
    simp only [moveLoop] at h
    split at h
    · exact absurd h (by simp)
    · have hmid := ih h
      exact hmid
    · split at h
      · exact absurd h (by simp)
      · case _ pr hpop =>
        have hmid := ih h
        obtain ⟨g1, g2, g3, g4, g5, g6, g7⟩ := hmid
        refine ⟨g1, g2, g3, g4, g5, g6, g7.trans ?_⟩
        simp [Person.move, List.length_set]

/-! ### The occupancy invariant -/

/-- Well-formedness of a simulation state: the vacancy pool is a duplicate-free
set of grid cells, a cell is occupied exactly when it is a grid cell outside
the pool, occupant indices are valid, and the `occupant`/`home`
back-references agree in both directions. -/
structure CityInv (st : City) : Prop where
  pool_nodup : st.empty_homes.Nodup
  pool_grid : ∀ c, c ∈ st.empty_homes → c ∈ gridCoords st.nx st.ny
  occ_grid : ∀ c, st.occupant c ≠ none → c ∈ gridCoords st.nx st.ny
  occ_pool : ∀ c, st.occupant c ≠ none → c ∉ st.empty_homes
  vac_pool : ∀ c, c ∈ gridCoords st.nx st.ny → st.occupant c = none → c ∈ st.empty_homes
  occ_lt : ∀ c i, st.occupant c = some i → i < st.people.length
  occ_home : ∀ c i, st.occupant c = some i → (st.people.getD i personDefault).home = c
  home_occ : ∀ i, i < st.people.length → st.occupant ((st.people.getD i personDefault).home) = some i

lemma inv_placePeople {n g : Nat} {st st' : City} {rand : Nat → Nat}
    (hInv : CityInv st) (h : placePeople n g st rand = some st') : CityInv st' := by
  induction n generalizing st with
  | zero =>
    simp only [placePeople, Option.some.injEq] at h
    subst h; exact hInv
  | succ n ih =>
    simp only [placePeople] at h
    split at h
    · exact absurd h (by simp)
    · case _ hm rest hpop =>
      have hperm := popAt_perm hpop
      have hmem : hm ∈ st.empty_homes := hperm.mem_iff.mpr (by simp)
      have hnodup : (hm :: rest).Nodup := hperm.nodup hInv.pool_nodup
      have hrest_nodup : rest.Nodup := (List.nodup_cons.mp hnodup).2
      have hm_rest : hm ∉ rest := (List.nodup_cons.mp hnodup).1
      have hrest_sub : ∀ c, c ∈ rest → c ∈ st.empty_homes :=
        fun c hc => hperm.mem_iff.mpr (by simp [hc])
      have hm_grid : hm ∈ gridCoords st.nx st.ny := hInv.pool_grid hm hmem
      have hm_vac : st.occupant hm = none := by
        by_contra hne
        exact hInv.occ_pool hm hne hmem
      have hInv' : CityInv
          { st with
            empty_homes := rest,
            people := st.people ++ [⟨g, hm, st.happiness_threshold⟩],
            occupant := fun c => if c = hm then some st.people.length else st.occupant c } := by
        constructor
        · exact hrest_nodup
        · exact fun c hc => hInv.pool_grid c (hrest_sub c hc)
        · intro c hc
          by_cases hch : c = hm
          · subst hch; exact hm_grid
          · simp only [if_neg hch] at hc
            exact hInv.occ_grid c hc
        · intro c hc
          by_cases hch : c = hm
          · subst hch; exact hm_rest
          · simp only [if_neg hch] at hc
            exact fun hcr => hInv.occ_pool c hc (hrest_sub c hcr)
        · intro c hcg hcv
          by_cases hch : c = hm
          · subst hch; simp at hcv
          · simp only [if_neg hch] at hcv
            have := hInv.vac_pool c hcg hcv
            have hco : c = hm ∨ c ∈ rest := by
              have := hperm.mem_iff.mp this
              simpa using this
            exact hco.resolve_left hch
        · intro c i hc
          rw [List.length_append, List.length_cons, List.length_nil]
          by_cases hch : c = hm
          · subst hch; simp at hc; omega
          · simp only [if_neg hch] at hc
            have := hInv.occ_lt c i hc
            omega
        · intro c i hc
          by_cases hch : c = hm
          · subst hch
            simp at hc
            subst hc
            dsimp only
            rw [getD_concat_length]
          · simp only [if_neg hch] at hc
            have hlt := hInv.occ_lt c i hc
            rw [getD_append_lt _ _ _ _ hlt]
            exact hInv.occ_home c i hc
        · intro i hi
          rw [List.length_append, List.length_cons, List.length_nil] at hi
          by_cases hii : i = st.people.length
          · subst hii
            dsimp only
            rw [getD_concat_length]
            simp
          · have hlt : i < st.people.length := by omega
            rw [getD_append_lt _ _ _ _ hlt]
            have hocc := hInv.home_occ i hlt
            have hne : (st.people.getD i personDefault).home ≠ hm := by
              intro heq
              rw [heq] at hocc
              rw [hm_vac] at hocc
              exact Option.noConfusion hocc
            dsimp only
            rw [if_neg hne]
            exact hocc
      have hfin := ih hInv' h
      exact hfin

lemma inv_seedGroups {l : List Nat} {st st' : City} {rand : Nat → Nat}
    (hInv : CityInv st) (h : seedGroups l st rand = some st') : CityInv st' := by
  induction l generalizing st with
  | nil =>
    simp only [seedGroups, Option.some.injEq] at h
    subst h; exact hInv
  | cons i rest ih =>
    simp only [seedGroups] at h
    split at h
    · exact absurd h (by simp)
    · split at h
      · exact absurd h (by simp)
      · case _ st₁ heq =>
        exact ih (inv_placePeople hInv heq) h

lemma inv_find_neighbors {st : City} (hInv : CityInv st) : CityInv st.find_neighbors := by
  obtain ⟨h1, h2, h3, h4, h5, h6, h7, h8⟩ := hInv
  exact ⟨h1, h2, h3, h4, h5, h6, h7, h8⟩

lemma inv_init {nx ny : Nat} {thr : ℚ} {ngroups : Nat} {breakdown : List ℚ}
    {rand : Nat → Nat} {st : City}
    (h : City.init nx ny thr ngroups breakdown rand = some st) : CityInv st := by
  simp only [City.init, City.populate_homes, Option.map_eq_some'] at h
  obtain ⟨st₁, hpop, rfl⟩ := h
  refine inv_find_neighbors (inv_seedGroups ?_ hpop)
  constructor
  · exact (List.nil_append _) ▸ gridCoords_nodup nx ny
  · intro c hc
    simpa using hc
  · intro c hc; exact absurd rfl hc
  · intro c hc; exact absurd rfl hc
  · intro c hc _
    simpa using hc
  · intro c i hc; exact Option.noConfusion hc
  · intro c i hc; exact Option.noConfusion hc
  · intro i hi; simp at hi

lemma inv_moveLoop {idxs : List Nat} {n m : Nat} {st st' : City} {rand : Nat → Nat}
    (hInv : CityInv st) (hidx : ∀ j ∈ idxs, j < st.people.length)
    (h : moveLoop idxs n st rand = some (m, st')) : CityInv st' := by
  induction idxs generalizing n st with
  | nil =>
    simp only [moveLoop, Option.some.injEq, Prod.mk.injEq] at h
    rw [← h.2]; exact hInv
  | cons i rest ih =>
    simp only [moveLoop] at h
    split at h
    · exact absurd h (by simp)
    · exact ih hInv (fun j hj => hidx j (List.mem_cons_of_mem _ hj)) h
    · split at h
      · exact absurd h (by simp)
      · case _ _ _ _ hm pool hpop =>
        set p := st.people.getD i personDefault with hp
        have hilt : i < st.people.length := hidx i (List.mem_cons_self _ _)
        have hperm := popAt_perm hpop
        have hmem : hm ∈ st.empty_homes := hperm.mem_iff.mpr (by simp)
        have hnodup : (hm :: pool).Nodup := hperm.nodup hInv.pool_nodup
        have hpool_nodup : pool.Nodup := (List.nodup_cons.mp hnodup).2
        have hm_pool : hm ∉ pool := (List.nodup_cons.mp hnodup).1
        have hpool_sub : ∀ c, c ∈ pool → c ∈ st.empty_homes :=
          fun c hc => hperm.mem_iff.mpr (by simp [hc])
        have hm_grid : hm ∈ gridCoords st.nx st.ny := hInv.pool_grid hm hmem
        have hm_vac : st.occupant hm = none := by
          by_contra hne
          exact hInv.occ_pool hm hne hmem
        have hocc_p : st.occupant p.home = some i := hInv.home_occ i hilt
        have hp_grid : p.home ∈ gridCoords st.nx st.ny :=
          hInv.occ_grid p.home (by rw [hocc_p]; simp)
        have hp_pool : p.home ∉ st.empty_homes :=
          hInv.occ_pool p.home (by rw [hocc_p]; simp)
        have hp_ne : p.home ≠ hm := by
          intro heq; rw [heq, hm_vac] at hocc_p; exact Option.noConfusion hocc_p
        have hInv' : CityInv (Person.move { st with empty_homes := pool ++ [p.home] } i hm) := by
          constructor
          · dsimp only [Person.move]
            rw [List.nodup_append]
            refine ⟨hpool_nodup, List.nodup_singleton _, ?_⟩
            intro a ha hb
            rw [List.mem_singleton] at hb
            subst hb
            exact hp_pool (hpool_sub _ ha)
          · intro c hc
            dsimp only [Person.move] at hc ⊢
            rw [List.mem_append, List.mem_singleton] at hc
            rcases hc with hc | hc
            · exact hInv.pool_grid c (hpool_sub c hc)
            · subst hc; exact hp_grid
          · intro c hc
            dsimp only [Person.move] at hc ⊢
            by_cases h1 : c = hm
            · subst h1; exact hm_grid
            · rw [if_neg h1] at hc
              by_cases h2 : c = p.home
              · rw [if_pos h2] at hc; exact absurd rfl hc
              · rw [if_neg h2] at hc; exact hInv.occ_grid c hc
          · intro c hc
            dsimp only [Person.move] at hc ⊢
            rw [List.mem_append, List.mem_singleton]
            push_neg
            by_cases h1 : c = hm
            · subst h1
              exact ⟨hm_pool, hp_ne.symm⟩
            · rw [if_neg h1] at hc
              by_cases h2 : c = p.home
              · rw [if_pos h2] at hc; exact absurd rfl hc
              · rw [if_neg h2] at hc
                exact ⟨fun hcp => hInv.occ_pool c hc (hpool_sub c hcp), h2⟩
          · intro c hcg hcv
            dsimp only [Person.move] at hcv ⊢
            rw [List.mem_append, List.mem_singleton]
            by_cases h1 : c = hm
            · subst h1; simp at hcv
            · rw [if_neg h1] at hcv
              by_cases h2 : c = p.home
              · right; exact h2
              · rw [if_neg h2] at hcv
                have := hInv.vac_pool c hcg hcv
                have hco : c = hm ∨ c ∈ pool := by simpa using hperm.mem_iff.mp this
                left; exact hco.resolve_left h1
          · intro c j hc
            dsimp only [Person.move] at hc ⊢
            rw [List.length_set]
            by_cases h1 : c = hm
            · rw [if_pos h1] at hc
              obtain rfl : i = j := Option.some.inj hc
              exact hilt
            · rw [if_neg h1] at hc
              by_cases h2 : c = p.home
              · rw [if_pos h2] at hc; exact Option.noConfusion hc
              · rw [if_neg h2] at hc; exact hInv.occ_lt c j hc
          · intro c j hc
            dsimp only [Person.move] at hc ⊢
            by_cases h1 : c = hm
            · rw [if_pos h1] at hc
              obtain rfl : i = j := Option.some.inj hc
              rw [getD_set_self _ _ _ _ hilt, h1]
            · rw [if_neg h1] at hc
              by_cases h2 : c = p.home
              · rw [if_pos h2] at hc; exact Option.noConfusion hc
              · rw [if_neg h2] at hc
                have hji : j ≠ i := by
                  intro heq
                  subst heq
                  exact h2 (hInv.occ_home c j hc ▸ (hInv.occ_home c j hc).symm ▸ (by
                    have := hInv.occ_home c j hc
                    rw [← this]))
                rw [getD_set_ne _ _ _ _ _ (fun heq => hji heq.symm)]
                exact hInv.occ_home c j hc
          · intro j hj
            dsimp only [Person.move] at hj ⊢
            rw [List.length_set] at hj
            by_cases h1 : j = i
            · subst h1
              rw [getD_set_self _ _ _ _ hilt]
              simp
            · rw [getD_set_ne _ _ _ _ _ (fun heq => h1 heq.symm)]
              have hocc_j := hInv.home_occ j hj
              have hne1 : (st.people.getD j personDefault).home ≠ hm := by
                intro heq; rw [heq, hm_vac] at hocc_j; exact Option.noConfusion hocc_j
              have hne2 : (st.people.getD j personDefault).home ≠ p.home := by
                intro heq
                rw [heq, hocc_p] at hocc_j
                exact h1 (Option.some.inj hocc_j).symm
              rw [if_neg hne1, if_neg hne2]
              exact hocc_j
        have hlen : ∀ j ∈ rest, j <
            (Person.move { st with empty_homes := pool ++ [p.home] } i hm).people.length := by
          intro j hj
          dsimp only [Person.move]
          rw [List.length_set]
          exact hidx j (List.mem_cons_of_mem _ hj)
        exact ih hInv' hlen h

lemma inv_move_unhappy {st st' : City} {rand : Nat → Nat} {n : Nat}
    (hInv : CityInv st) (h : st.move_unhappy rand = some (n, st')) : CityInv st' :=
  inv_moveLoop hInv (fun j hj => List.mem_range.mp hj) h

lemma inv_reachable {st : City} (h : Reachable st) : CityInv st := by
  induction h with
  | init nx ny thr ngroups breakdown rand st hinit => exact inv_init hinit
  | step st st' rand n _ hstep ih => exact inv_move_unhappy ih hstep

/-- With the invariant in hand: the grid cells outside the pool are exactly
the occupied ones, so occupied plus vacant counts exhaust the grid. -/
lemma occupied_add_empty {st : City} (hInv : CityInv st) :
    occupiedCount st + st.empty_homes.length = st.nx * st.ny := by
  have hfilter :
      ((gridCoords st.nx st.ny).filter fun c => !(st.occupant c).isSome).Perm
        st.empty_homes := by
    rw [List.perm_ext_iff_of_nodup ((gridCoords_nodup _ _).filter _) hInv.pool_nodup]
    intro c
    rw [List.mem_filter]
    constructor
    · rintro ⟨hg, hv⟩
      refine hInv.vac_pool c hg ?_
      cases hocc : st.occupant c with
      | none => rfl
      | some j => rw [hocc] at hv; simp at hv
    · intro hc
      refine ⟨hInv.pool_grid c hc, ?_⟩
      cases hocc : st.occupant c with
      | none => rfl
      | some j =>
        exact absurd hc (hInv.occ_pool c (by rw [hocc]; simp))
  have hsplit := List.length_eq_countP_add_countP (fun c => (st.occupant c).isSome)
    (gridCoords st.nx st.ny)
  rw [gridCoords_length] at hsplit
  have hcount : (gridCoords st.nx st.ny).countP (fun c => !(st.occupant c).isSome) =
      st.empty_homes.length := by
    rw [List.countP_eq_length_filter]
    exact hfilter.length_eq
  have hconv : (fun a => decide ¬((st.occupant a).isSome = true)) =
      fun c => !(st.occupant c).isSome := by
    funext c
    cases st.occupant c <;> simp
  rw [hconv] at hsplit
  rw [occupiedCount]
  omega

/-! ### The happiness counters -/

lemma neighborCounts_foldl (st : City) (g : Nat) (l : List (Int × Int)) (a b : Nat) :
    l.foldl
      (fun acc n =>
        match st.occupant n with
        | none => acc
        | some idx =>
          if (st.people.getD idx personDefault).group = g then (acc.1 + 1, acc.2)
          else (acc.1, acc.2 + 1))
      (a, b) =
    (a + l.countP (fun n => decide (occupantGroup st n = some g)),
      b + l.countP (fun n =>
        (st.occupant n).isSome && !(decide (occupantGroup st n = some g)))) := by
  induction l generalizing a b with
  | nil => simp
  | cons n l ih =>
    rw [List.foldl_cons, List.countP_cons, List.countP_cons]
    cases hocc : st.occupant n with
    | none =>
      have h1 : decide (occupantGroup st n = some g) = false := by
        rw [occupantGroup, hocc]
        simp
      simp only [h1, hocc, Option.isSome_none, Bool.false_and, if_false]
      rw [ih a b, Prod.mk.injEq]
      simp
    | some idx =>
      have hog : occupantGroup st n = some (st.people.getD idx personDefault).group := by
        rw [occupantGroup, hocc, Option.map_some']
      by_cases hg : (st.people.getD idx personDefault).group = g
      · have h1 : decide (occupantGroup st n = some g) = true := by
          rw [hog, hg]
          simp
        simp only [hocc, if_pos hg, h1, Option.isSome_some, Bool.not_true, Bool.and_false]
        rw [ih (a + 1) b, Prod.mk.injEq]
        simp
        all_goals omega
      · have h1 : decide (occupantGroup st n = some g) = false := by
          rw [hog]
          simp only [decide_eq_false_iff_not, Option.some.injEq]
          exact hg
        simp only [hocc, if_neg hg, h1, Option.isSome_some, Bool.not_false, Bool.and_true,
          Bool.true_and]
        rw [ih a (b + 1), Prod.mk.injEq]
        simp
        all_goals omega
      
lemma neighborCounts_eq (st : City) (p : Person) :
    neighborCounts st p.group p.home = (sameCount st p, diffCount st p) := by
  unfold neighborCounts sameCount diffCount
  rw [neighborCounts_foldl]
  simp

/-! ### Zero-relocation steps -/

lemma moveLoop_count_le {idxs : List Nat} {n m : Nat} {st st' : City} {rand : Nat → Nat}
    (h : moveLoop idxs n st rand = some (m, st')) : n ≤ m := by
  induction idxs generalizing n st with
  | nil =>
    simp only [moveLoop, Option.some.injEq, Prod.mk.injEq] at h
    omega
  | cons i rest ih =>
    simp only [moveLoop] at h
    split at h
    · exact absurd h (by simp)
    · exact ih h
    · split at h
      · exact absurd h (by simp)
      · exact Nat.le_of_succ_le (ih h)

lemma moveLoop_zero {idxs : List Nat} {n : Nat} {st st' : City} {rand : Nat → Nat}
    (h : moveLoop idxs n st rand = some (n, st')) :
    st' = st ∧ ∀ rand2, moveLoop idxs n st rand2 = some (n, st) := by
  induction idxs generalizing st with
  | nil =>
    simp only [moveLoop, Option.some.injEq, Prod.mk.injEq] at h
    exact ⟨h.2.symm, fun rand2 => by simp [moveLoop]⟩
  | cons i rest ih =>
    simp only [moveLoop] at h
    split at h
    · exact absurd h (by simp)
    · case _ hhappy =>
      have hres := ih h
      refine ⟨hres.1, fun rand2 => ?_⟩
      simp only [moveLoop, hhappy]
      exact hres.2 rand2
    · split at h
      · exact absurd h (by simp)
      · have := moveLoop_count_le h
        omega

/-! ### Seeding counts -/

lemma placePeople_people {n g : Nat} {st st' : City} {rand : Nat → Nat}
    (h : placePeople n g st rand = some st') :
    ∃ new : List Person, st'.people = st.people ++ new ∧ new.length = n ∧
      (∀ q, q ∈ new → q.group = g) ∧
      st'.empty_homes.length + n = st.empty_homes.length := by
  induction n generalizing st with
  | zero =>
    simp only [placePeople, Option.some.injEq] at h
    subst h
    exact ⟨[], by simp, rfl, by simp, by simp⟩
  | succ n ih =>
    simp only [placePeople] at h
    split at h
    · exact absurd h (by simp)
    · case _ hm rest hpop =>
      have hmid := ih h
      obtain ⟨new, hpeople, hlen, hgrp, hpool⟩ := hmid
      dsimp only at hpool
      have hplen : rest.length + 1 = st.empty_homes.length := by
        have := (popAt_perm hpop).length_eq
        simpa using this.symm
      refine ⟨⟨g, hm, st.happiness_threshold⟩ :: new, ?_, by simp [hlen], ?_, by omega⟩
      · rw [hpeople]
        simp
      · intro q hq
        rcases List.mem_cons.mp hq with hq | hq
        · subst hq; rfl
        · exact hgrp q hq

lemma count_group_of_placed {l : List Person} {g : Nat} (hlen : ∀ q, q ∈ l → q.group = g)
    (i : Nat) : l.countP (fun q => q.group == i) = if i = g then l.length else 0 := by
  induction l with
  | nil => simp
  | cons q rest ih =>
    rw [List.countP_cons]
    rw [ih (fun r hr => hlen r (List.mem_cons_of_mem _ hr))]
    have hq : q.group = g := hlen q (List.mem_cons_self _ _)
    by_cases hig : i = g
    · subst hig
      simp [hq]
    · simp [hq, hig]
      intro hgi
      exact absurd hgi.symm hig

lemma seedGroups_counts {l : List Nat} {st st' : City} {rand : Nat → Nat}
    (h : seedGroups l st rand = some st') (hnd : l.Nodup) :
    ∀ i, st'.people.countP (fun q => q.group == i) =
      st.people.countP (fun q => q.group == i) +
        if i ∈ l then groupSize st.nx st.ny (st.breakdown.getD i 0) else 0 := by
  induction l generalizing st with
  | nil =>
    simp only [seedGroups, Option.some.injEq] at h
    subst h
    simp
  | cons j rest ih =>
    simp only [seedGroups] at h
    split at h
    · exact absurd h (by simp)
    · case _ b hb =>
      split at h
      · exact absurd h (by simp)
      · case _ st₁ heq =>
        intro i
        have hnd' := (List.nodup_cons.mp hnd).2
        have hjrest := (List.nodup_cons.mp hnd).1
        have hrec := ih h hnd' i
        obtain ⟨new, hpeople, hlen, hgrp, _⟩ := placePeople_people heq
        obtain ⟨f1, f2, _, _, f5, _⟩ := placePeople_frame heq
        have hc1 : st₁.people.countP (fun q => q.group == i) =
            st.people.countP (fun q => q.group == i) +
              if i = j then groupSize st.nx st.ny b else 0 := by
          rw [hpeople, List.countP_append, count_group_of_placed hgrp, hlen]
        have hbd : st.breakdown.getD j 0 = b := by
          rw [List.getD_eq_getElem?_getD, ← List.get?_eq_getElem?, hb]
          rfl
        rw [hrec, f1, f2, f5, hc1]
        by_cases hij : i = j
        · subst hij
          rw [if_pos (List.mem_cons_self _ _), if_pos rfl, if_neg hjrest, hbd]
          omega
        · rw [if_neg hij]
          by_cases hir : i ∈ rest
          · rw [if_pos hir, if_pos (List.mem_cons_of_mem _ hir)]
            omega
          · rw [if_neg hir, if_neg (by simp [hij, hir])]

/-! ### What `City.init` produces -/

lemma init_fields {nx ny : Nat} {thr : ℚ} {ngroups : Nat} {breakdown : List ℚ}
    {rand : Nat → Nat} {st : City}
    (h : City.init nx ny thr ngroups breakdown rand = some st) :
    st.nx = nx ∧ st.ny = ny ∧ st.ngroups = ngroups ∧
    st.happiness_threshold = thr ∧ st.breakdown = breakdown := by
  simp only [City.init, City.populate_homes, Option.map_eq_some'] at h
  obtain ⟨st₁, hseed, rfl⟩ := h
  obtain ⟨f1, f2, f3, f4, f5, _⟩ := seedGroups_frame hseed
  exact ⟨f1, f2, f3, f4, f5⟩

lemma init_neighbors {nx ny : Nat} {thr : ℚ} {ngroups : Nat} {breakdown : List ℚ}
    {rand : Nat → Nat} {st : City}
    (h : City.init nx ny thr ngroups breakdown rand = some st) :
    ∀ c, st.neighbors_list c =
      if inGridB nx ny c then neighborCoords nx ny c else [] := by
  simp only [City.init, City.populate_homes, Option.map_eq_some'] at h
  obtain ⟨st₁, hseed, rfl⟩ := h
  obtain ⟨f1, f2, _, _, _, f6⟩ := seedGroups_frame hseed
  intro c
  show (if inGridB st₁.nx st₁.ny c
      then st₁.neighbors_list c ++ neighborCoords st₁.nx st₁.ny c
      else st₁.neighbors_list c) = _
  rw [f1, f2, f6]
  by_cases hc : inGridB nx ny c = true
  · rw [if_pos hc, if_pos hc]
    rfl
  · rw [if_neg hc, if_neg hc]

lemma init_counts {nx ny : Nat} {thr : ℚ} {ngroups : Nat} {breakdown : List ℚ}
    {rand : Nat → Nat} {st : City}
    (h : City.init nx ny thr ngroups breakdown rand = some st) :
    ∀ i, i < ngroups →
      st.people.countP (fun q => q.group == i) = groupSize nx ny (breakdown.getD i 0) := by
  intro i hi
  simp only [City.init, City.populate_homes, Option.map_eq_some'] at h
  obtain ⟨st₁, hseed, rfl⟩ := h
  have hc := seedGroups_counts hseed (List.nodup_range _) i
  show st₁.people.countP (fun q => q.group == i) = _
  rw [hc]
  simp [List.mem_range.mpr hi]

/-! ### The candidate neighbourhood -/

lemma mem_candidates {c d : Int × Int} :
    d ∈ candidates c ↔ (d.1 - c.1).natAbs ≤ 1 ∧ (d.2 - c.2).natAbs ≤ 1 := by
  obtain ⟨c1, c2⟩ := c
  obtain ⟨d1, d2⟩ := d
  simp only [candidates, List.mem_cons, List.mem_singleton, List.not_mem_nil, or_false,
    Prod.mk.injEq]
  omega

lemma candidates_nodup (c : Int × Int) : (candidates c).Nodup := by
  obtain ⟨c1, c2⟩ := c
  simp only [candidates, List.nodup_cons, List.mem_cons, List.mem_singleton,
    List.not_mem_nil, or_false, Prod.mk.injEq, not_or, List.nodup_singleton, and_true,
    List.nodup_nil, not_false_eq_true, true_and]
  omega

lemma mem_neighborCoords {nx ny : Nat} {c d : Int × Int} :
    d ∈ neighborCoords nx ny c ↔
      d ∈ gridCoords nx ny ∧ d ≠ c ∧ (d.1 - c.1).natAbs ≤ 1 ∧ (d.2 - c.2).natAbs ≤ 1 := by
  unfold neighborCoords
  rw [List.mem_filter, mem_candidates, Bool.and_eq_true, inGridB_iff, decide_eq_true_eq]
  tauto

lemma neighborCoords_nodup (nx ny : Nat) (c : Int × Int) :
    (neighborCoords nx ny c).Nodup :=
  (candidates_nodup c).filter _

lemma count_eq_one_of_nodup_mem {α : Type} [BEq α] [LawfulBEq α] {l : List α} {a : α}
    (hnd : l.Nodup) (ha : a ∈ l) : l.count a = 1 := by
  induction l with
  | nil => simp at ha
  | cons b l ih =>
    rw [List.count_cons]
    rcases List.mem_cons.mp ha with rfl | ha'
    · have hnotmem : a ∉ l := (List.nodup_cons.mp hnd).1
      have hcnt : l.count a = 0 := List.count_eq_zero.mpr hnotmem
      simp [hcnt]
    · have hne : b ≠ a := by
        rintro rfl
        exact (List.nodup_cons.mp hnd).1 ha'
      rw [ih (List.nodup_cons.mp hnd).2 ha']
      simp [hne]

lemma is_unhappy_eq (st : City) (p : Person) :
    Person.is_unhappy st p =
      if sameCount st p + diffCount st p = 0 then none
      else some (decide (((sameCount st p : ℚ)) /
        (((diffCount st p : ℚ)) + ((sameCount st p : ℚ))) < p.happiness_threshold)) := by
  simp only [Person.is_unhappy, neighborCounts_eq]

/-! ### The claims -/

/-- C1: occupied/vacant partition invariant — after construction and after
every completed `move_unhappy` step, every grid cell is in exactly one of
the two states (occupied, or member of `empty_homes`), and the number of
occupied cells plus the size of the vacancy pool is `nx * ny`. -/
theorem partition_invariant {st : City} (h : Reachable st) :
    (∀ c, c ∈ gridCoords st.nx st.ny →
        (((st.occupant c).isSome = true ∧ c ∉ st.empty_homes) ∨
          (st.occupant c = none ∧ c ∈ st.empty_homes))) ∧
    occupiedCount st + st.empty_homes.length = st.nx * st.ny := by
  have hInv := inv_reachable h
  refine ⟨?_, occupied_add_empty hInv⟩
  intro c hc
  cases hocc : st.occupant c with
  | none => exact Or.inr ⟨rfl, hInv.vac_pool c hc hocc⟩
  | some i =>
    exact Or.inl ⟨rfl, hInv.occ_pool c (by rw [hocc]; simp)⟩

/-- Witness for C1 at a concrete reachable city (the seeded 2x2 city). -/
theorem partition_invariant_witness :
    occupiedCount city22 + city22.empty_homes.length = city22.nx * city22.ny :=
  (partition_invariant (Reachable.init 2 2 (mkRat 3 10) 1 [mkRat 1 2] (fun _ => 0) city22
    (by with_unfolding_all rfl))).2

/-- C2: bidirectional consistency — in every reachable state each occupant
reference points at a person whose home reference points back, each person
occupies exactly one home, and `Person.move` clears the old home's
occupant, sets the new home's occupant and updates the home reference. -/
theorem bidirectional_consistency {st : City} (h : Reachable st) :
    (∀ c i, st.occupant c = some i →
        i < st.people.length ∧ (st.people.getD i personDefault).home = c) ∧
    (∀ i, i < st.people.length →
        ∀ c, st.occupant c = some i ↔ c = (st.people.getD i personDefault).home) ∧
    (∀ (s : City) (j : Nat) (nh : Int × Int),
        (Person.move s j nh).occupant nh = some j ∧
        (∀ c, c ≠ nh → c = (s.people.getD j personDefault).home →
            (Person.move s j nh).occupant c = none) ∧
        (∀ c, c ≠ nh → c ≠ (s.people.getD j personDefault).home →
            (Person.move s j nh).occupant c = s.occupant c) ∧
        (j < s.people.length →
            ((Person.move s j nh).people.getD j personDefault).home = nh)) := by
  have hInv := inv_reachable h
  refine ⟨?_, ?_, ?_⟩
  · exact fun c i hc => ⟨hInv.occ_lt c i hc, hInv.occ_home c i hc⟩
  · intro i hi c
    constructor
    · intro hc
      exact (hInv.occ_home c i hc).symm
    · intro hc
      subst hc
      exact hInv.home_occ i hi
  · intro s j nh
    refine ⟨?_, ?_, ?_, ?_⟩
    · dsimp only [Person.move]
      rw [if_pos rfl]
    · intro c hc1 hc2
      dsimp only [Person.move]
      rw [if_neg hc1, if_pos hc2]
    · intro c hc1 hc2
      dsimp only [Person.move]
      rw [if_neg hc1, if_neg hc2]
    · intro hj
      dsimp only [Person.move]
      rw [getD_set_self _ _ _ _ hj]

/-- Witness for C2: in the concrete 2x2 city, person 0's home points back
at person 0. -/
theorem bidirectional_consistency_witness :
    city22.occupant ((city22.people.getD 0 personDefault).home) = some 0 := by
  have hlen : city22.people.length = 2 := by with_unfolding_all rfl
  exact ((bidirectional_consistency (Reachable.init 2 2 (mkRat 3 10) 1 [mkRat 1 2]
    (fun _ => 0) city22 (by with_unfolding_all rfl))).2.1 0 (by omega)
    ((city22.people.getD 0 personDefault).home)).mpr rfl

/-- C3: the happiness rule — when a person has at least one occupied
neighbour, `is_unhappy` returns a boolean that is true exactly when
`same / (same + diff)` is strictly below the threshold; in particular with
3 same-group and 7 different-group occupied neighbours and threshold 3/10
the person is happy (equality at the threshold means happy). -/
theorem happiness_rule :
    (∀ (st : City) (p : Person), sameCount st p + diffCount st p ≠ 0 →
        ∃ b : Bool, Person.is_unhappy st p = some b ∧
          (b = true ↔ ((sameCount st p : ℚ)) / ((sameCount st p : ℚ) + (diffCount st p : ℚ)) <
            p.happiness_threshold)) ∧
    (∀ (st : City) (p : Person), sameCount st p = 3 → diffCount st p = 7 →
        p.happiness_threshold = mkRat 3 10 → Person.is_unhappy st p = some false) := by
  constructor
  · intro st p hne
    rw [is_unhappy_eq, if_neg hne]
    refine ⟨_, rfl, ?_⟩
    rw [decide_eq_true_eq, add_comm ((diffCount st p : ℚ)) ((sameCount st p : ℚ))]
  · intro st p hs hd hthr
    rw [is_unhappy_eq, hs, hd, hthr, Rat.mkRat_eq_div]
    rw [if_neg (by norm_num)]
    refine congrArg some ?_
    rw [decide_eq_false_iff_not]
    norm_num

/-- Witness for C3 at the hand-built boundary city: 3 same, 7 different,
threshold 3/10, and the person is happy. -/
theorem happiness_rule_witness :
    Person.is_unhappy boundaryCity boundaryPerson = some false := by
  refine happiness_rule.2 boundaryCity boundaryPerson ?_ ?_ rfl
  · with_unfolding_all rfl
  · with_unfolding_all rfl

/-- C4: contrary to the claim, `is_unhappy` is not total — for the single
person of a 1x1 city (one person, zero occupied neighbours) the evaluation
divides by zero (`none`), and the relocation step that calls it crashes
instead of returning a count. -/
theorem happiness_div_by_zero :
    (City.init 1 1 (mkRat 3 10) 1 [1] (fun _ => 0)).map
        (fun st => (st.people.length,
          sameCount st (st.people.getD 0 personDefault) +
            diffCount st (st.people.getD 0 personDefault),
          Person.is_unhappy st (st.people.getD 0 personDefault))) = some (1, 0, none) ∧
    (City.init 1 1 (mkRat 3 10) 1 [1] (fun _ => 0)).bind
        (fun st => st.move_unhappy (fun _ => 0)) = none :=
  ⟨by with_unfolding_all rfl, by with_unfolding_all rfl⟩

/-- C5: contrary to the claim, a breakdown summing to 11/10 > 1 does not
make seeding fail — on a 2x5 grid the floored group counts (5 and 5) fit
exactly, construction succeeds and leaves zero vacant homes.  Seeding does
fail (by the `randrange(0)` crash) when a group count exceeds the remaining
vacant cells, as with breakdown [2] on a 2x2 grid. -/
theorem seeding_validation :
    (1 : ℚ) < mkRat 11 20 + mkRat 11 20 ∧
    (City.init 2 5 (mkRat 1 2) 2 [mkRat 11 20, mkRat 11 20] (fun _ => 0)).map
        (fun st => (st.people.length, st.empty_homes.length)) = some (10, 0) ∧
    City.init 2 2 (mkRat 1 2) 1 [2] (fun _ => 0) = none :=
  ⟨by norm_num [Rat.mkRat_eq_div], by with_unfolding_all rfl, by with_unfolding_all rfl⟩

/-- C6: contrary to the claim, when the vacancy pool is empty and a person
is unhappy, `move_unhappy` crashes (the `randrange(0)` call raises) instead
of leaving the person in place: in the fully-occupied 2x5 city person 0 is
unhappy, the pool is empty, and the step returns no count at all. -/
theorem empty_pool_crash :
    (City.init 2 5 (mkRat 1 2) 2 [mkRat 11 20, mkRat 11 20] (fun _ => 0)).map
        (fun st => (st.empty_homes.length,
          Person.is_unhappy st (st.people.getD 0 personDefault))) = some (0, some true) ∧
    (City.init 2 5 (mkRat 1 2) 2 [mkRat 11 20, mkRat 11 20] (fun _ => 0)).bind
        (fun st => st.move_unhappy (fun _ => 0)) = none :=
  ⟨by with_unfolding_all rfl, by with_unfolding_all rfl⟩

/-- C7: seeding counts — for every successful construction, group `i`
receives exactly `int(breakdown[i] * nx * ny)` people, all in pairwise
distinct homes (drawn without replacement); in particular the 10x10 city
with breakdown [2/5, 1/2] has 40 people of group 0, 50 of group 1 and 10
vacant homes. -/
theorem seeding_counts :
    (∀ (nx ny : Nat) (thr : ℚ) (ngroups : Nat) (breakdown : List ℚ)
        (rand : Nat → Nat) (st : City),
        City.init nx ny thr ngroups breakdown rand = some st →
        (∀ i, i < ngroups →
            st.people.countP (fun q => q.group == i) = groupSize nx ny (breakdown.getD i 0)) ∧
        (∀ i j, i < st.people.length → j < st.people.length → i ≠ j →
            (st.people.getD i personDefault).home ≠ (st.people.getD j personDefault).home)) ∧
    (City.init 10 10 (mkRat 3 10) 2 [mkRat 2 5, mkRat 1 2] (fun _ => 0)).map
        (fun st => (st.people.countP (fun q => q.group == 0),
          st.people.countP (fun q => q.group == 1), st.empty_homes.length)) =
      some (40, 50, 10) := by
  constructor
  · intro nx ny thr ngroups breakdown rand st h
    refine ⟨init_counts h, ?_⟩
    intro i j hi hj hij heq
    have hInv := inv_init h
    have h1 := hInv.home_occ i hi
    have h2 := hInv.home_occ j hj
    rw [heq] at h1
    rw [h1] at h2
    exact hij (Option.some.inj h2)
  · with_unfolding_all rfl

/-- Witness for C7 at the concrete 10x10 city. -/
theorem seeding_counts_witness :
    bigCity.people.countP (fun q => q.group == 0) =
      groupSize 10 10 ([mkRat 2 5, mkRat 1 2].getD 0 0) :=
  (seeding_counts.1 10 10 (mkRat 3 10) 2 [mkRat 2 5, mkRat 1 2] (fun _ => 0) bigCity
    (by with_unfolding_all rfl)).1 0 (by decide)

/-- C8: idempotence of convergence — if a `move_unhappy` step returns 0,
then it changed nothing, and every later step (whatever its random draws)
also returns 0 and leaves the state unchanged. -/
theorem convergence_idempotent (st : City) (rand : Nat → Nat) (st' : City)
    (h : st.move_unhappy rand = some (0, st')) :
    st' = st ∧ ∀ rand2, st.move_unhappy rand2 = some (0, st) := by
  have h' : moveLoop (List.range st.people.length) 0 st rand = some (0, st') := h
  obtain ⟨h1, h2⟩ := moveLoop_zero h'
  exact ⟨h1, fun rand2 => h2 rand2⟩

/-- Witness for C8: the happy 2x2 city relocates nobody, and repeating the
step with different random draws again relocates nobody. -/
theorem convergence_idempotent_witness :
    city22.move_unhappy (fun _ => 1) = some (0, city22) :=
  (convergence_idempotent city22 (fun _ => 0) city22 (by with_unfolding_all rfl)).2 (fun _ => 1)

/-- C9: adjacency — after construction each grid cell's neighbour list
holds, without duplicates, exactly the grid cells at Chebyshev distance ≤ 1
other than itself (no wraparound, no out-of-bounds); on a 3x3 grid the
centre has 8 neighbours and the corner 3. -/
theorem adjacency_correct :
    (∀ (nx ny : Nat) (thr : ℚ) (ngroups : Nat) (breakdown : List ℚ)
        (rand : Nat → Nat) (st : City),
        City.init nx ny thr ngroups breakdown rand = some st →
        ∀ c, c ∈ gridCoords nx ny →
          (st.neighbors_list c).Nodup ∧
          ∀ d, d ∈ st.neighbors_list c ↔
            d ∈ gridCoords nx ny ∧ d ≠ c ∧
              (d.1 - c.1).natAbs ≤ 1 ∧ (d.2 - c.2).natAbs ≤ 1) ∧
    (City.init 3 3 (mkRat 3 10) 0 [] (fun _ => 0)).map
        (fun st => ((st.neighbors_list (1, 1)).length, (st.neighbors_list (0, 0)).length)) =
      some (8, 3) := by
  constructor
  · intro nx ny thr ngroups breakdown rand st h c hc
    have hn := init_neighbors h c
    rw [hn, if_pos (inGridB_iff.mpr hc)]
    exact ⟨neighborCoords_nodup nx ny c, fun d => mem_neighborCoords⟩
  · with_unfolding_all rfl

/-- Witness for C9 at the concrete 3x3 city: the corner's neighbour list is
duplicate-free. -/
theorem adjacency_correct_witness :
    (city33.neighbors_list (0, 0)).Nodup :=
  (adjacency_correct.1 3 3 (mkRat 3 10) 0 [] (fun _ => 0) city33
    (by with_unfolding_all rfl) (0, 0) (by decide)).1

/-- C10: `find_neighbors` is not idempotent — `City.init` runs it exactly
once, leaving each grid cell's list equal to its true neighbourhood, and a
second run appends the same neighbours again: the list length doubles and
every neighbour then occurs exactly twice. -/
theorem find_neighbors_doubles :
    ∀ (nx ny : Nat) (thr : ℚ) (ngroups : Nat) (breakdown : List ℚ)
      (rand : Nat → Nat) (st : City),
      City.init nx ny thr ngroups breakdown rand = some st →
      ∀ c, c ∈ gridCoords nx ny →
        st.neighbors_list c = neighborCoords nx ny c ∧
        st.find_neighbors.neighbors_list c = st.neighbors_list c ++ st.neighbors_list c ∧
        (st.find_neighbors.neighbors_list c).length = 2 * (st.neighbors_list c).length ∧
        ∀ d, d ∈ st.neighbors_list c → (st.find_neighbors.neighbors_list c).count d = 2 := by
  intro nx ny thr ngroups breakdown rand st h c hc
  obtain ⟨f1, f2, _, _, _⟩ := init_fields h
  have hn := init_neighbors h c
  rw [if_pos (inGridB_iff.mpr hc)] at hn
  have hgrid : inGridB st.nx st.ny c = true := by
    rw [f1, f2]
    exact inGridB_iff.mpr hc
  have hfn : st.find_neighbors.neighbors_list c =
      st.neighbors_list c ++ st.neighbors_list c := by
    show (if inGridB st.nx st.ny c
        then st.neighbors_list c ++ neighborCoords st.nx st.ny c
        else st.neighbors_list c) = _
    rw [if_pos hgrid, hn, f1, f2]
  refine ⟨hn, hfn, ?_, ?_⟩
  · rw [hfn, List.length_append]
    omega
  · intro d hd
    have hnd : (st.neighbors_list c).Nodup := by
      rw [hn]
      exact neighborCoords_nodup nx ny c
    rw [hfn, List.count_append]
    have hone := count_eq_one_of_nodup_mem hnd hd
    omega

/-- Witness for C10 at the concrete 3x3 city: the corner's list doubles. -/
theorem find_neighbors_doubles_witness :
    (city33.find_neighbors.neighbors_list (0, 0)).length =
      2 * (city33.neighbors_list (0, 0)).length :=
  (find_neighbors_doubles 3 3 (mkRat 3 10) 0 [] (fun _ => 0) city33
    (by with_unfolding_all rfl) (0, 0) (by decide)).2.2.1
